import Mathlib

/-!
Verification of the canvas editor's scene/history model and interaction
engine against its specification.  JavaScript numbers are modelled as
exact rationals (ℚ); element ids as strings; the flat element array as a
`List Element`.
-/

namespace Canvas

/-- A 2-D point (`types.ts`, `Point`). -/
structure Point where
  x : ℚ
  y : ℚ
  deriving DecidableEq, Repr

/-- An axis-aligned rectangle (`types.ts`, `Rect`). -/
structure Rect where
  x : ℚ
  y : ℚ
  width : ℚ
  height : ℚ
  deriving DecidableEq, Repr

/-- The nine element variants (`types.ts`, the `Element` tagged union). -/
inductive ElType where
  | image | video | path | shape | text | arrow | line | group | frame
  deriving DecidableEq, Repr

/-- One scene element, flattening the TS tagged union into a single record:
only the fields the verified operations read are kept.  `rotation` defaults
to 0 (the TS field is optional); frames have no rotation field in TS, which
readers account for explicitly. -/
structure Element where
  id : String
  type : ElType
  x : ℚ := 0
  y : ℚ := 0
  width : ℚ := 0
  height : ℚ := 0
  rotation : ℚ := 0
  isLocked : Bool := false
  parentId : Option String := none
  points : List Point := []
  deriving DecidableEq, Repr

/-- A board: element list plus linear snapshot history (`types.ts`, `Board`).
Pan/zoom/background are irrelevant to the verified operations. -/
structure Board where
  elements : List Element
  history : List (List Element)
  historyIndex : Nat
  deriving DecidableEq, Repr

/-- `App.tsx` `updateActiveBoard` restricted to the active board: applies the
updater; when `commit` is true, truncates the history after `historyIndex`,
appends the updated elements and points `historyIndex` at the new last entry. -/
def updateActiveBoard (updater : Board → Board) (commit : Bool) (board : Board) : Board :=
  let updatedBoard := updater board
  if commit then
    let newHistory := board.history.take (board.historyIndex + 1) ++ [updatedBoard.elements]
    { updatedBoard with history := newHistory, historyIndex := newHistory.length - 1 }
  else updatedBoard

/-- `App.tsx` `setElementsAndCommit`: the commit branch passes the new
elements through; the non-commit branch additionally overwrites the history
slot at `historyIndex` with the new elements (`tempHistory[board.historyIndex]
= newElements`; `List.set` agrees with the JS assignment for an in-range
index, which the board invariant guarantees). -/
def setElementsAndCommit (updater : List Element → List Element) (commit : Bool)
    (board : Board) : Board :=
  updateActiveBoard (fun b =>
    let newElements := updater b.elements
    if commit then { b with elements := newElements }
    else { b with elements := newElements,
                  history := b.history.set b.historyIndex newElements }) commit board

/-- `App.tsx` `commitAction`: commit the updater's result through
`updateActiveBoard`. -/
def commitAction (updater : List Element → List Element) (board : Board) : Board :=
  updateActiveBoard (fun b => { b with elements := updater b.elements }) true board

/-- `App.tsx` `handleUndo`: step `historyIndex` back and load that snapshot;
no-op at index 0.  `getD _ []` matches the JS indexing, which the invariant
keeps in range. -/
def handleUndo (board : Board) : Board :=
  if 0 < board.historyIndex then
    { board with historyIndex := board.historyIndex - 1,
                 elements := board.history.getD (board.historyIndex - 1) [] }
  else board

/-- `App.tsx` `handleRedo`: step `historyIndex` forward and load that
snapshot; no-op at the last index. -/
def handleRedo (board : Board) : Board :=
  if board.historyIndex < board.history.length - 1 then
    { board with historyIndex := board.historyIndex + 1,
                 elements := board.history.getD (board.historyIndex + 1) [] }
  else board

/-- The board history invariant from the spec: the pointer is in range and
the snapshot under it is the live elements array. -/
def BoardInv (b : Board) : Prop :=
  b.historyIndex < b.history.length ∧ b.history[b.historyIndex]? = some b.elements

/-- Modelled from the spec: `getElementBounds` (`elementUtils.ts`, absent
from the sources) — "variant dispatch: direct width/height for
image/shape/text/video/frame/group; min/max over point list for path;
min/max over the 2-point list for arrow/line" (§4.4).  The min/max folds
start from the first point; an empty point list yields the zero rect. -/
def boundsOfPoints : List Point → Rect
  | [] => ⟨0, 0, 0, 0⟩
  | p :: ps =>
    let minX := ps.foldl (fun m q => min m q.x) p.x
    let minY := ps.foldl (fun m q => min m q.y) p.y
    let maxX := ps.foldl (fun m q => max m q.x) p.x
    let maxY := ps.foldl (fun m q => max m q.y) p.y
    ⟨minX, minY, maxX - minX, maxY - minY⟩

/-- Modelled from the spec: `getElementBounds` variant dispatch (§4.4). -/
def getElementBounds (el : Element) : Rect :=
  match el.type with
  | .path | .arrow | .line => boundsOfPoints el.points
  | _ => ⟨el.x, el.y, el.width, el.height⟩

/-- Frame containment test shared by all three parenting sites
(`SmartToolbar.tsx` `commitAndParent` / the `dragElements` release in
`handleMouseUp`, `App.tsx` `addElementsWithParenting`): the candidate
bounds must lie fully inside the frame's rectangle. -/
def frameContains (frame : Element) (r : Rect) : Bool :=
  decide (frame.x ≤ r.x) && decide (frame.y ≤ r.y) &&
  decide (r.x + r.width ≤ frame.x + frame.width) &&
  decide (r.y + r.height ≤ frame.y + frame.height)

/-- The comparator the three parenting sites pass to `.sort`, verbatim:
`(a.width * a.height) - (b.width * a.height)`. -/
def frameCmp (a b : Element) : ℚ :=
  a.width * a.height - b.width * a.height

/-- `frames.filter(contains).sort(frameCmp)[0]`: JS `Array.prototype.sort`
is stable, and for frames of positive height `frameCmp` is a consistent
comparator ordering by width alone, so the head of the sorted array is the
first-listed minimal frame under `frameCmp`; the fold below returns exactly
that element. -/
def selectContainingFrame (frames : List Element) (r : Rect) : Option Element :=
  (frames.filter (fun f => frameContains f r)).foldl
    (fun best f =>
      match best with
      | none => some f
      | some bf => if frameCmp f bf < 0 then some f else some bf) none

/-- The per-element body of the `dragElements` release: a moved non-frame
element is re-parented to the selected containing frame, or orphaned when
no frame contains it.  (The source's `el.parentId !== newParentId` guard
only avoids allocating an identical record.) -/
def reparentFn (frames : List Element) (movingIds : List String) (el : Element) : Element :=
  if movingIds.contains el.id && el.type != .frame then
    match selectContainingFrame frames (getElementBounds el) with
    | some f => { el with parentId := some f.id }
    | none => { el with parentId := none }
  else el

/-- The `dragElements` branch of `SmartToolbar.tsx` `handleMouseUp`: every
moved non-frame element is re-evaluated for frame containment. -/
def reparentAfterDrag (movingIds : List String) (els : List Element) : List Element :=
  els.map (reparentFn (els.filter (fun e => e.type == .frame)) movingIds)

/-- `SmartToolbar.tsx` `commitAndParent`: after a drawing gesture, the newly
drawn element is parented to the selected containing frame (when one exists
and is not the element itself); otherwise the array is returned unchanged. -/
def commitAndParentStep (drawnElementId : String) (els : List Element) : List Element :=
  match els.find? (fun e => e.id == drawnElementId) with
  | none => els
  | some newElement =>
    let frames := els.filter (fun e => e.type == .frame)
    if frames.isEmpty then els
    else
      match selectContainingFrame frames (getElementBounds newElement) with
      | some f =>
        if newElement.id != f.id then
          els.map (fun el => if el.id == newElement.id then { el with parentId := some f.id } else el)
        else els
      | none => els

/-- `findById` lookup: `allElements.find(el => el.id === id)`. -/
def findById (els : List Element) (i : String) : Option Element :=
  els.find? (fun el => el.id == i)

/-- The climbing loop of `getSelectableElement` (source file of
`getSelectableElement`, lines 10-17), with explicit fuel standing in for
the unbounded `while`: the JS loop terminates on every acyclic parent
chain, and every theorem below supplies fuel at least the chain length. -/
def climb : Nat → List Element → Element → Option Element
  | 0, _, current => some current
  | fuel + 1, els, current =>
    match current.parentId with
    | none => some current
    | some pid =>
      match findById els pid with
      | none => some current
      | some parent =>
        if parent.isLocked then none
        else if parent.type == .frame then some current
        else climb fuel els parent

/-- `getSelectableElement(elementId, allElements)`: fail on a missing or
locked element, else climb the parent chain. -/
def getSelectableElement (fuel : Nat) (elementId : String) (els : List Element) :
    Option Element :=
  match findById els elementId with
  | none => none
  | some el => if el.isLocked then none else climb fuel els el

/-- The full ancestor chain of an element (following `parentId` lookups
until a root or a dangling reference, through frames as well), used to
state what "an ancestor on its parent chain" means in the claim. -/
def parentChain : Nat → List Element → Element → List Element
  | 0, _, _ => []
  | fuel + 1, els, current =>
    match current.parentId with
    | none => []
    | some pid =>
      match findById els pid with
      | none => []
      | some parent => parent :: parentChain fuel els parent

/-- Spec-side reading of the amended C9: collect the climbed ancestors (up
to and including a first frame parent, and stopping before a dangling
parent), paired with the element the climb ends on. -/
def specClimbPath : Nat → List Element → Element → List Element × Element
  | 0, _, current => ([], current)
  | fuel + 1, els, current =>
    match current.parentId with
    | none => ([], current)
    | some pid =>
      match findById els pid with
      | none => ([], current)
      | some parent =>
        if parent.type == .frame then ([parent], current)
        else
          let rest := specClimbPath fuel els parent
          (parent :: rest.1, rest.2)

/-- Spec-side selectable-element function for the amended C9: null when the
element itself or any climbed ancestor is locked, else the top of the
climbed chain. -/
def specSelectable (fuel : Nat) (elementId : String) (els : List Element) :
    Option Element :=
  match findById els elementId with
  | none => none
  | some el =>
    let path := specClimbPath fuel els el
    if el.isLocked || path.1.any (fun a => a.isLocked) then none else some path.2

/-- A sample element for concrete test boards. -/
def elA : Element := { id := "a", type := .shape, width := 1, height := 1 }

/-- A second sample element. -/
def elB : Element := { id := "b", type := .shape, x := 3, width := 1, height := 1 }

/-- A board whose history is `[[elA], [elA, elB]]` with the pointer at 0:
the state reached by committing once and undoing once. -/
def boardAtStart : Board :=
  { elements := [elA], history := [[elA], [elA, elB]], historyIndex := 0 }

/-- A one-entry board used for the transient-update counterexample. -/
def boardOne : Board :=
  { elements := [elA], history := [[elA]], historyIndex := 0 }

/-- The same two-entry history with the pointer at the last entry. -/
def boardAtEnd : Board :=
  { elements := [elA, elB], history := [[elA], [elA, elB]], historyIndex := 1 }

/-- A tall, narrow frame: width 10, height 100, area 1000. -/
def frameF1 : Element := { id := "F1", type := .frame, x := 0, y := 0, width := 10, height := 100 }

/-- A wider but smaller-area frame: width 20, height 30, area 600. -/
def frameF2 : Element := { id := "F2", type := .frame, x := 0, y := 0, width := 20, height := 30 }

/-- A small element contained by both frames above. -/
def elE : Element := { id := "E", type := .shape, x := 1, y := 1, width := 5, height := 5 }

/-- The parenting counterexample scene: both frames contain `elE`. -/
def sceneFrames : List Element := [frameF1, frameF2, elE]

/-- A shape inside a frame. -/
def elInFrame : Element := { id := "e", type := .shape, parentId := some "f" }

/-- An unlocked frame nested inside a locked group. -/
def frameUnderGroup : Element := { id := "f", type := .frame, parentId := some "g" }

/-- A locked group that is an ancestor of `elInFrame` beyond the frame. -/
def lockedGroup : Element := { id := "g", type := .group, isLocked := true }

/-- The selectability counterexample scene. -/
def sceneLockedAboveFrame : List Element := [elInFrame, frameUnderGroup, lockedGroup]

/-- The JS test `Math.hypot(px - qx, py - qy) < r` in exact arithmetic: for
`0 < r` it is equivalent to comparing squared distance against `r ^ 2`, and
for `r ≤ 0` it is false because `hypot` is nonnegative. -/
def pointWithin (p q : Point) (r : ℚ) : Bool :=
  decide (0 < r) && decide ((p.x - q.x) ^ 2 + (p.y - q.y) ^ 2 < r ^ 2)

/-- The per-element test of the erase branch of `SmartToolbar.tsx`
`handleMouseMove`: the loop `for (let i = 0; i < el.points.length - 1; i++)`
examines every sampled point of a path except the last one. -/
def pathHit (el : Element) (pointer : Point) (r : ℚ) : Bool :=
  el.type == .path && el.points.dropLast.any (fun p => pointWithin p pointer r)

/-- One pointer-move of the erase tool: radius `strokeWidth / zoom`; every
hit path is dropped.  (The source only calls `setElements` when the id set
is nonempty; filtering with an empty hit set is the identity, so the
elements produced are the same.) -/
def eraseStep (els : List Element) (pointer : Point) (strokeWidth zoom : ℚ) :
    List Element :=
  els.filter (fun el => !(pathHit el pointer (strokeWidth / zoom)))

/-- A freehand path whose final sampled point is at the origin. -/
def pathP : Element := { id := "P", type := .path, points := [⟨100, 100⟩, ⟨0, 0⟩] }

/-- `rotatePoint` (`mathUtils.ts`) with the cosine and sine of the angle
supplied as an exact pair `(c, s)` (the JS computes them by
`Math.cos`/`Math.sin`; the theorems below hold for arbitrary values of the
pair, hence for the true cosine/sine of every angle). -/
def rotatePointCS (c s : ℚ) (p center : Point) : Point :=
  ⟨(p.x - center.x) * c - (p.y - center.y) * s + center.x,
   (p.x - center.x) * s + (p.y - center.y) * c + center.y⟩

/-- The four corners of a rectangle in the order `getSelectionBounds`
visits them. -/
def corners (b : Rect) : List Point :=
  [⟨b.x, b.y⟩, ⟨b.x + b.width, b.y⟩, ⟨b.x + b.width, b.y + b.height⟩, ⟨b.x, b.y + b.height⟩]

/-- `('rotation' in el && el.rotation) ? el.rotation : 0`: frames carry no
rotation field in the TS union, every other variant defaults to 0. -/
def elRotation (el : Element) : ℚ :=
  if el.type == .frame then 0 else el.rotation

/-- The center of a rectangle. -/
def centerOf (b : Rect) : Point :=
  ⟨b.x + b.width / 2, b.y + b.height / 2⟩

/-- The corner list `getSelectionBounds` aggregates for one element: the
4 bounds corners, passed through `rotatePoint` unless the rotation is 0,
with the cosine/sine of angle `r` given by `trig r`. -/
def rotatedCorners (trig : ℚ → ℚ × ℚ) (el : Element) (b : Rect) : List Point :=
  let rotation := elRotation el
  if rotation == 0 then corners b
  else (corners b).map (fun p => rotatePointCS (trig rotation).1 (trig rotation).2 p (centerOf b))

/-- All corners `getSelectionBounds` folds over: selected elements in
element order, skipping any whose bounds have both zero width and zero
height. -/
def selectionCorners (trig : ℚ → ℚ × ℚ) (ids : List String) (els : List Element) :
    List Point :=
  ((els.filter (fun el => ids.contains el.id)).map (fun el =>
    let b := getElementBounds el
    if b.width == 0 && b.height == 0 then [] else rotatedCorners trig el b)).flatten

/-- `getSelectionBounds(selectionIds, allElements)`: min/max folds over the
aggregated corners.  The `±Infinity` sentinels of the source reduce, over
any nonempty corner list, to folds seeded with the first corner, and the
`minX === Infinity` early return (which also covers an empty selection) to
the empty-corner-list case. -/
def getSelectionBounds (trig : ℚ → ℚ × ℚ) (ids : List String) (els : List Element) :
    Rect :=
  match selectionCorners trig ids els with
  | [] => ⟨0, 0, 0, 0⟩
  | p :: ps =>
    let minX := ps.foldl (fun m q => min m q.x) p.x
    let minY := ps.foldl (fun m q => min m q.y) p.y
    let maxX := ps.foldl (fun m q => max m q.x) p.x
    let maxY := ps.foldl (fun m q => max m q.y) p.y
    ⟨minX, minY, maxX - minX, maxY - minY⟩

/-- Spec-side definition for C10: the axis-aligned bounding box of the four
corners of `b`, each rotated by angle `r` (cosine/sine given by `trig r`)
about the center of `b`. -/
def specAABB (trig : ℚ → ℚ × ℚ) (b : Rect) (r : ℚ) : Rect :=
  let cs := trig r
  let q1 := rotatePointCS cs.1 cs.2 ⟨b.x, b.y⟩ (centerOf b)
  let q2 := rotatePointCS cs.1 cs.2 ⟨b.x + b.width, b.y⟩ (centerOf b)
  let q3 := rotatePointCS cs.1 cs.2 ⟨b.x + b.width, b.y + b.height⟩ (centerOf b)
  let q4 := rotatePointCS cs.1 cs.2 ⟨b.x, b.y + b.height⟩ (centerOf b)
  let minX := min (min (min q1.x q2.x) q3.x) q4.x
  let minY := min (min (min q1.y q2.y) q3.y) q4.y
  let maxX := max (max (max q1.x q2.x) q3.x) q4.x
  let maxY := max (max (max q1.y q2.y) q3.y) q4.y
  ⟨minX, minY, maxX - minX, maxY - minY⟩

/-- A one-point freehand path: its bounds are the degenerate rect at
`(5, 5)`. -/
def dotPath : Element := { id := "D", type := .path, points := [⟨5, 5⟩] }

/-- A trig assignment that is exact at angle 0 (all the counterexamples
need). -/
def trigId : ℚ → ℚ × ℚ := fun _ => (1, 0)

/-- A rotated shape for the C10 witness. -/
def elS : Element :=
  { id := "s", type := .shape, x := 3, y := 4, width := 10, height := 20, rotation := 137 }

/-- The eight resize handles of `SmartToolbar.tsx` (corners and edge
midpoints). -/
inductive Handle where
  | tl | t | tr | r | br | b | bl | l
  deriving DecidableEq, Repr

/-- `handle.includes('l')`. -/
def Handle.hasL : Handle → Bool
  | .tl | .bl | .l => true
  | _ => false

/-- `handle.includes('r')`. -/
def Handle.hasR : Handle → Bool
  | .tr | .br | .r => true
  | _ => false

/-- `handle.includes('t')`. -/
def Handle.hasT : Handle → Bool
  | .tl | .tr | .t => true
  | _ => false

/-- `handle.includes('b')`. -/
def Handle.hasB : Handle → Bool
  | .bl | .br | .b => true
  | _ => false

/-- `const isProportional = originalElement.type === 'image' || (e.shiftKey
&& originalElement.type !== 'text')` from the resize branch of
`handleMouseMove`. -/
def isProportional (ty : ElType) (shiftKey : Bool) : Bool :=
  ty == .image || (shiftKey && ty != .text)

/-- The mouse delta rotated into the element's local frame: `dx_local = dx
* cos + dy * sin`, `dy_local = -dx * sin + dy * cos`. -/
def localDelta (dx dy c s : ℚ) : ℚ × ℚ :=
  (dx * c + dy * s, -dx * s + dy * c)

/-- The new width/height of the resize branch before the 1-px minimum
clamp: the handle applies the local delta, then the proportional branch
overrides one dimension via the original aspect ratio (`newHeight =
newWidth / aspectRatio`, `newWidth = newHeight * aspectRatio`). -/
def resizeDimsRaw (orig : Rect) (handle : Handle) (isProp : Bool) (dxL dyL : ℚ) : ℚ × ℚ :=
  let w1 := if handle.hasR then orig.width + dxL
            else if handle.hasL then orig.width - dxL else orig.width
  let h1 := if handle.hasB then orig.height + dyL
            else if handle.hasT then orig.height - dyL else orig.height
  if isProp && decide (0 < orig.width) && decide (0 < orig.height) then
    if handle.hasR || handle.hasL then (w1, w1 / (orig.width / orig.height))
    else (h1 * (orig.width / orig.height), h1)
  else (w1, h1)

/-- `if (newWidth < 1) newWidth = 1` (and likewise for the height). -/
def clampMin1 (q : ℚ) : ℚ := if q < 1 then 1 else q

/-- The final width/height of the resize branch. -/
def resizeDims (orig : Rect) (handle : Handle) (isProp : Bool) (dxL dyL : ℚ) : ℚ × ℚ :=
  let raw := resizeDimsRaw orig handle isProp dxL dyL
  (clampMin1 raw.1, clampMin1 raw.2)

/-- The pivot (anchor) point of a bounds rectangle for a handle — the
corner/edge-midpoint opposite the active handle, exactly as the source
computes both `pivot_local` (from the original bounds) and
`new_pivot_local` (from the temp bounds). -/
def pivotOf (rect : Rect) (handle : Handle) : Point :=
  ⟨if handle.hasL then rect.x + rect.width
    else if handle.hasR then rect.x else rect.x + rect.width / 2,
   if handle.hasT then rect.y + rect.height
    else if handle.hasB then rect.y else rect.y + rect.height / 2⟩

/-- The full geometry of one resize pointer-move (`SmartToolbar.tsx`
`handleMouseMove`, `resize-` branch): new dimensions, provisional
`tempX/tempY` keeping the static corner for unrotated elements, then the
world-space correction translating the bounds so the rotated pivot stays
where it was. -/
def resizeBounds (orig : Rect) (handle : Handle) (isProp : Bool) (dxL dyL c s : ℚ) : Rect :=
  let dims := resizeDims orig handle isProp dxL dyL
  let tempX := if handle.hasL then orig.x + orig.width - dims.1 else orig.x
  let tempY := if handle.hasT then orig.y + orig.height - dims.2 else orig.y
  let tempRect : Rect := ⟨tempX, tempY, dims.1, dims.2⟩
  let pivotWorld := rotatePointCS c s (pivotOf orig handle) (centerOf orig)
  let newPivotWorld := rotatePointCS c s (pivotOf tempRect handle) (centerOf tempRect)
  ⟨tempX + (pivotWorld.x - newPivotWorld.x), tempY + (pivotWorld.y - newPivotWorld.y),
   dims.1, dims.2⟩

/-- A gesture-start snapshot entry of `dragStartElementPositions`: `{x, y}`
for the positioned variants, the point list for path/arrow/line. -/
inductive PosSnap where
  | xy (p : Point)
  | pts (ps : List Point)
  deriving DecidableEq, Repr

/-- `el.type === 'path' || el.type === 'arrow' || el.type === 'line'`, the
capture-time variant test. -/
def isPointsType (ty : ElType) : Bool :=
  ty == .path || ty == .arrow || ty == .line

/-- The snapshot captured at pointer-down for one dragged element. -/
def snapOf (el : Element) : PosSnap :=
  if isPointsType el.type then .pts el.points else .xy ⟨el.x, el.y⟩

/-- The `initialPositions` map built at pointer-down: one entry per element
whose id is dragged, in element order. -/
def captureStart (ids : List String) (els : List Element) : List (String × PosSnap) :=
  els.filterMap (fun el => if ids.contains el.id then some (el.id, snapOf el) else none)

/-- `dragStartElementPositions.current.get(id)` (a JS `Map` keyed by the
unique element ids, so the first matching entry is the entry). -/
def lookupSnap (snaps : List (String × PosSnap)) (i : String) : Option PosSnap :=
  (snaps.find? (fun kv => kv.1 == i)).map (fun kv => kv.2)

/-- The three vertical snap lines of a bounds rect (left, center, right). -/
def snapVPoints (b : Rect) : List ℚ :=
  [b.x, b.x + b.width / 2, b.x + b.width]

/-- The three horizontal snap lines of a bounds rect (top, middle, bottom). -/
def snapHPoints (b : Rect) : List ℚ :=
  [b.y, b.y + b.height / 2, b.y + b.height]

/-- The moving bounds used for snapping: the element with its geometry
reset to the gesture-start snapshot. -/
def boundsAtSnap (el : Element) (s : PosSnap) : Rect :=
  match s with
  | .xy p => getElementBounds { el with x := p.x, y := p.y }
  | .pts ps => getElementBounds { el with points := ps }

/-- JS `Set.add`: append if absent (insertion order preserved). -/
def insertUnique (l : List ℚ) (q : ℚ) : List ℚ :=
  if q ∈ l then l else l ++ [q]

/-- The static snap values collected from the non-moving elements, in
iteration order, deduplicated like the JS `Set`. -/
def staticPoints (axisPoints : Rect → List ℚ) (others : List Element) : List ℚ :=
  others.foldl (fun acc el => (axisPoints (getElementBounds el)).foldl insertUnique acc) []

/-- The moving snap values: for each element with a snapshot, in element
order, the three axis lines of its snapshot bounds. -/
def movingPoints (axisPoints : Rect → List ℚ) (els : List Element)
    (snaps : List (String × PosSnap)) : List ℚ :=
  (els.filterMap (fun el =>
    (lookupSnap snaps el.id).map (fun s => axisPoints (boundsAtSnap el s)))).flatten

/-- `Math.abs` spelled with a comparison so that concrete rationals
evaluate. -/
def absQ (q : ℚ) : ℚ :=
  if q < 0 then -q else q

/-- One comparison step of the snap search: keep the candidate iff it is
within the threshold and strictly beats the best so far (`Infinity` at the
start, modelled by `none`), so equal-distance later candidates lose. -/
def betterSnap (thr delta : ℚ) (best : Option (ℚ × ℚ)) (p staticP : ℚ) : Option (ℚ × ℚ) :=
  let dist := absQ (p + delta - staticP)
  match best with
  | none => if dist < thr then some (dist, staticP - p) else none
  | some bd => if dist < thr ∧ dist < bd.1 then some (dist, staticP - p) else some bd

/-- The nested `forEach` over moving values (outer) and static values
(inner) of one axis. -/
def bestSnapAxis (thr delta : ℚ) (movingPts staticPts : List ℚ) : Option (ℚ × ℚ) :=
  movingPts.foldl (fun best p => staticPts.foldl (fun acc sp => betterSnap thr delta acc p sp) best)
    none

/-- The final per-axis drag deltas of one `dragElements` pointer-move:
threshold 5 screen pixels converted to canvas units, raw delta kept when no
candidate is within the threshold. -/
def snapDeltas (els : List Element) (snaps : List (String × PosSnap)) (dx dy zoom : ℚ) :
    ℚ × ℚ :=
  let thr := 5 / zoom
  let movingIds := snaps.map (fun kv => kv.1)
  let others := els.filter (fun el => !(movingIds.contains el.id))
  let bx := bestSnapAxis thr dx (movingPoints snapVPoints els snaps) (staticPoints snapVPoints others)
  let bY := bestSnapAxis thr dy (movingPoints snapHPoints els snaps) (staticPoints snapHPoints others)
  (match bx with | some dv => dv.2 | none => dx,
   match bY with | some dv => dv.2 | none => dy)

/-- Applying the snapped delta to one element from its gesture-start
snapshot (the `switch` of the `dragElements` move: positioned variants get
`initial + delta`, point-list variants get every snapshot point shifted). -/
def moveByDelta (el : Element) (s : PosSnap) (fdx fdy : ℚ) : Element :=
  match s with
  | .xy p => { el with x := p.x + fdx, y := p.y + fdy }
  | .pts ps => { el with points := ps.map (fun q => ⟨q.x + fdx, q.y + fdy⟩) }

/-- The per-element move: elements without a snapshot entry are left
alone. -/
def moveFn (snaps : List (String × PosSnap)) (fdx fdy : ℚ) (el : Element) : Element :=
  match lookupSnap snaps el.id with
  | some s => moveByDelta el s fdx fdy
  | none => el

/-- One transient `dragElements` update of the whole array. -/
def applyMove (els : List Element) (snaps : List (String × PosSnap)) (fdx fdy : ℚ) :
    List Element :=
  els.map (moveFn snaps fdx fdy)

/-- A complete drag gesture at final pointer delta `(dx, dy)`: snapshot at
pointer-down, snapped delta applied from the snapshots (the intermediate
moves all recompute from the same snapshots, so the final transient state
depends only on the last delta), then the committing release re-parents the
moved elements. -/
def dragGesture (els : List Element) (ids : List String) (dx dy zoom : ℚ) : List Element :=
  let snaps := captureStart ids els
  let fd := snapDeltas els snaps dx dy zoom
  reparentAfterDrag (snaps.map (fun kv => kv.1)) (applyMove els snaps fd.1 fd.2)

/-- The dragged element of the C8 counterexample. -/
def elDrag : Element := { id := "A", type := .shape, x := 0, y := 0, width := 10, height := 10 }

/-- The static element whose left edge at x = 112 attracts the snap. -/
def elStatic : Element :=
  { id := "B", type := .shape, x := 112, y := 300, width := 10, height := 10 }

/-- The pointwise composition a drag gesture applies to each element once
the final deltas `(fdx, fdy)` are known: transient move from the snapshot,
then the committing re-parent over the moved array. -/
def dragFn (els : List Element) (ids : List String) (fdx fdy : ℚ) (el : Element) : Element :=
  reparentFn ((applyMove els (captureStart ids els) fdx fdy).filter (fun e => e.type == .frame))
    ((captureStart ids els).map (fun kv => kv.1))
    (moveFn (captureStart ids els) fdx fdy el)

end Canvas

namespace Canvas

/-- C2: a committed operation applies its updater to the current elements,
discards the history entries strictly after `historyIndex`, appends the
result as a new snapshot, and points `historyIndex` at the new last entry. -/
theorem commitAction_spec (u : List Element → List Element) (b : Board) :
    (commitAction u b).elements = u b.elements ∧
    (commitAction u b).history = b.history.take (b.historyIndex + 1) ++ [u b.elements] ∧
    (commitAction u b).historyIndex = (commitAction u b).history.length - 1 ∧
    (commitAction u b).history.getLast? = some (u b.elements) := by
  refine ⟨rfl, rfl, rfl, ?_⟩
  simp [commitAction, updateActiveBoard]

/-- C3: the invariant `history[historyIndex] = elements` together with the
range bound on `historyIndex` is preserved by commit, transient update,
undo and redo. -/
theorem board_invariant_preserved (u : List Element → List Element) (b : Board)
    (h : BoardInv b) :
    BoardInv (commitAction u b) ∧ BoardInv (setElementsAndCommit u false b) ∧
    BoardInv (handleUndo b) ∧ BoardInv (handleRedo b) := by
  obtain ⟨hlt, hget⟩ := h
  refine ⟨⟨?_, ?_⟩, ⟨?_, ?_⟩, ?_, ?_⟩
  · simp [commitAction, updateActiveBoard]
  · have hlen : (b.history.take (b.historyIndex + 1)).length = b.historyIndex + 1 := by
      simp [List.length_take]; omega
    simp only [commitAction, updateActiveBoard, if_pos]
    simp [List.getElem?_append_right, hlen]
  · simpa [setElementsAndCommit, updateActiveBoard] using hlt
  · simp only [setElementsAndCommit, updateActiveBoard, if_neg]
    simpa using List.getElem?_set_self (by simpa using hlt)
  · unfold handleUndo
    split
    · refine ⟨by simp; omega, ?_⟩
      have hlt' : b.historyIndex - 1 < b.history.length := by omega
      simp [List.getElem?_eq_getElem hlt', List.getD_eq_getElem?_getD,
        List.getElem?_eq_getElem hlt']
    · exact ⟨hlt, hget⟩
  · unfold handleRedo
    split
    · rename_i hr
      refine ⟨by simp; omega, ?_⟩
      have hlt' : b.historyIndex + 1 < b.history.length := by omega
      simp [List.getElem?_eq_getElem hlt', List.getD_eq_getElem?_getD,
        List.getElem?_eq_getElem hlt']
    · exact ⟨hlt, hget⟩

/-- Witness for C3 at a concrete board. -/
theorem board_invariant_preserved_witness :
    BoardInv boardAtStart ∧
    (BoardInv (commitAction (fun e => e ++ [elB]) boardAtStart) ∧
     BoardInv (setElementsAndCommit (fun e => e ++ [elB]) false boardAtStart) ∧
     BoardInv (handleUndo boardAtStart) ∧ BoardInv (handleRedo boardAtStart)) :=
  ⟨⟨by decide, by decide⟩,
   board_invariant_preserved (fun e => e ++ [elB]) boardAtStart ⟨by decide, by decide⟩⟩

/-- C4 counterexample: on the reachable board with history `[[elA], [elA,
elB]]` and pointer 0, undo is a no-op but redo still advances, so
undo-then-redo does not restore the pre-undo elements array. -/
theorem undo_redo_roundtrip_cex :
    (handleRedo (handleUndo boardAtStart)).elements ≠ boardAtStart.elements := by
  decide

/-- C4 (amended): undo decrements `historyIndex` and loads that snapshot,
redo increments it and loads that snapshot, both are no-ops at their
boundaries, and — provided `historyIndex > 0`, so that undo actually moves —
undo followed by redo restores exactly the prior elements array. -/
theorem undo_redo_spec (b : Board) (h : BoardInv b) :
    (0 < b.historyIndex →
      (handleUndo b).historyIndex = b.historyIndex - 1 ∧
      (handleUndo b).elements = b.history.getD (b.historyIndex - 1) []) ∧
    (b.historyIndex = 0 → handleUndo b = b) ∧
    (b.historyIndex < b.history.length - 1 →
      (handleRedo b).historyIndex = b.historyIndex + 1 ∧
      (handleRedo b).elements = b.history.getD (b.historyIndex + 1) []) ∧
    (b.historyIndex = b.history.length - 1 → handleRedo b = b) ∧
    (0 < b.historyIndex → (handleRedo (handleUndo b)).elements = b.elements) := by
  obtain ⟨hlt, hget⟩ := h
  refine ⟨fun hpos => ?_, fun hz => ?_, fun hr => ?_, fun he => ?_, fun hpos => ?_⟩
  · rw [handleUndo, if_pos hpos]; exact ⟨rfl, rfl⟩
  · rw [handleUndo, if_neg (by omega)]
  · rw [handleRedo, if_pos hr]; exact ⟨rfl, rfl⟩
  · rw [handleRedo, if_neg (by omega)]
  · rw [handleUndo, if_pos hpos]
    rw [handleRedo]
    rw [if_pos (by simp; omega)]
    simp only []
    have : b.historyIndex - 1 + 1 = b.historyIndex := by omega
    rw [this]
    rw [List.getD_eq_getElem?_getD, hget]
    rfl

/-- Witness for C4 (amended) at a concrete board. -/
theorem undo_redo_spec_witness :
    BoardInv boardAtEnd ∧
    (handleRedo (handleUndo boardAtEnd)).elements = boardAtEnd.elements :=
  ⟨⟨by decide, by decide⟩,
   (undo_redo_spec boardAtEnd ⟨by decide, by decide⟩).2.2.2.2 (by decide)⟩

/-- C5 counterexample: a transient (non-commit) update on a concrete board
replaces the stored snapshot at `historyIndex`, so the history snapshots are
not left untouched. -/
theorem transient_update_cex :
    (setElementsAndCommit (fun e => e ++ [elB]) false boardOne).history[0]? ≠
      boardOne.history[0]? := by
  decide

/-- C1: the code contradicts the smallest-area rule (and its own "find the
smallest frame" comment).  On the concrete scene both frames fully contain
the moved element and `F2` has the smaller area, yet both the drag-release
path and the draw-release path parent the element to `F1`, because the
comparator `(a.width * a.height) - (b.width * a.height)` orders frames by
width instead of area. -/
theorem frame_parenting_picks_smaller_width_not_area :
    reparentAfterDrag ["E"] sceneFrames = [frameF1, frameF2, { elE with parentId := some "F1" }] ∧
    commitAndParentStep "E" sceneFrames = [frameF1, frameF2, { elE with parentId := some "F1" }] ∧
    frameContains frameF2 (getElementBounds elE) = true ∧
    frameContains frameF1 (getElementBounds elE) = true ∧
    frameF2.width * frameF2.height < frameF1.width * frameF1.height := by
  have hsel : selectContainingFrame [frameF1, frameF2] (getElementBounds elE) =
      some frameF1 := by
    norm_num [selectContainingFrame, frameContains, frameCmp, getElementBounds,
      frameF1, frameF2, elE, List.filter_cons, List.foldl_cons]
  have hfind : List.find? (fun e => e.id == "E") sceneFrames = some elE := by decide
  have hframes : sceneFrames.filter (fun e => e.type == ElType.frame) = [frameF1, frameF2] := by
    decide
  refine ⟨?_, ?_, ?_, ?_, ?_⟩
  · norm_num [reparentAfterDrag, reparentFn, sceneFrames, selectContainingFrame, frameContains,
      frameCmp, getElementBounds, frameF1, frameF2, elE, List.filter_cons, List.foldl_cons,
      List.map_cons]
    decide
  · rw [commitAndParentStep]
    rw [hfind]
    simp only [hframes, hsel]
    decide
  · norm_num [frameContains, getElementBounds, frameF2, elE]
  · norm_num [frameContains, getElementBounds, frameF1, elE]
  · norm_num [frameF1, frameF2]

/-- Auxiliary for C9: the source's short-circuiting climb agrees with
collecting the climbed ancestors first and then testing any of them for a
lock. -/
theorem climb_eq_specClimbPath (fuel : Nat) (els : List Element) (cur : Element) :
    climb fuel els cur =
      (if (specClimbPath fuel els cur).1.any (fun a => a.isLocked) then none
       else some (specClimbPath fuel els cur).2) := by
  induction fuel generalizing cur with
  | zero => simp [climb, specClimbPath]
  | succ n ih =>
    cases hp : cur.parentId with
    | none => simp [climb, specClimbPath, hp]
    | some pid =>
      cases hf : findById els pid with
      | none => simp [climb, specClimbPath, hp, hf]
      | some parent =>
        cases hl : parent.isLocked with
        | true =>
          cases hfr : parent.type == ElType.frame with
          | true => simp [climb, specClimbPath, hp, hf, hl, hfr]
          | false => simp [climb, specClimbPath, hp, hf, hl, hfr]
        | false =>
          cases hfr : parent.type == ElType.frame with
          | true => simp [climb, specClimbPath, hp, hf, hl, hfr]
          | false => simp [climb, specClimbPath, hp, hf, hl, hfr, ih]

/-- C9 counterexample: `lockedGroup` is a locked ancestor on the parent
chain of `elInFrame`, yet `getSelectableElement` does not return null — the
climb stops at the intervening frame before examining it. -/
theorem selectable_locked_beyond_frame_cex :
    lockedGroup ∈ parentChain 3 sceneLockedAboveFrame elInFrame ∧
    lockedGroup.isLocked = true ∧
    getSelectableElement 3 "e" sceneLockedAboveFrame = some elInFrame := by
  decide

/-- C9 (amended): `getSelectableElement` returns null exactly when the
element itself, or an ancestor on the *climbed* part of its parent chain —
climbing through group parents, stopping at (and still lock-checking) a
first frame parent, and treating a dangling parent reference as top-level —
is locked; otherwise it returns the element the climb ends on (the topmost
group reached, or the element itself when its parent is a frame, missing,
or absent). -/
theorem getSelectableElement_spec_equiv (fuel : Nat) (elementId : String)
    (els : List Element) :
    getSelectableElement fuel elementId els = specSelectable fuel elementId els := by
  unfold getSelectableElement specSelectable
  cases hf : findById els elementId with
  | none => rfl
  | some el =>
    cases hl : el.isLocked with
    | true => simp [hl]
    | false => simp [hl, climb_eq_specClimbPath]

/-- C7 counterexample: the erase loop stops one short of the final sampled
point, so a path whose only point inside the erase radius is its last one
is not removed — here the pointer sits exactly on the path's last point and
the path survives the move. -/
theorem erase_skips_last_point_cex :
    eraseStep [pathP] ⟨0, 0⟩ 10 1 = [pathP] ∧
    pointWithin ⟨0, 0⟩ ⟨0, 0⟩ (10 / 1) = true ∧
    (⟨0, 0⟩ : Point) ∈ pathP.points := by
  refine ⟨?_, ?_, by decide⟩
  · norm_num [eraseStep, pathHit, pointWithin, pathP, List.filter_cons, List.dropLast]
  · norm_num [pointWithin]

/-- C7 (amended): on an erase pointer-move, exactly those freehand path
elements with a sampled point *other than the last one* within the
zoom-adjusted radius of the pointer are removed, and the update is
transient: it changes neither the history length nor the history pointer. -/
theorem erase_step_spec (els : List Element) (pointer : Point) (strokeWidth zoom : ℚ) :
    (∀ el, el ∈ eraseStep els pointer strokeWidth zoom ↔
      el ∈ els ∧ ¬(el.type = .path ∧ ∃ p ∈ el.points.dropLast,
        0 < strokeWidth / zoom ∧
        (p.x - pointer.x) ^ 2 + (p.y - pointer.y) ^ 2 < (strokeWidth / zoom) ^ 2)) ∧
    (∀ b : Board,
      (setElementsAndCommit (fun e => eraseStep e pointer strokeWidth zoom) false b).history.length
        = b.history.length ∧
      (setElementsAndCommit (fun e => eraseStep e pointer strokeWidth zoom) false b).historyIndex
        = b.historyIndex) := by
  constructor
  · intro el
    have key : pathHit el pointer (strokeWidth / zoom) = true ↔
        (el.type = ElType.path ∧ ∃ p ∈ el.points.dropLast,
          0 < strokeWidth / zoom ∧
          (p.x - pointer.x) ^ 2 + (p.y - pointer.y) ^ 2 < (strokeWidth / zoom) ^ 2) := by
      simp [pathHit, pointWithin, List.any_eq_true, and_assoc]
    rw [eraseStep, List.mem_filter, Bool.not_eq_true']
    constructor
    · rintro ⟨hm, hf⟩
      exact ⟨hm, fun hc => absurd (key.mpr hc) (by simp [hf])⟩
    · rintro ⟨hm, hn⟩
      refine ⟨hm, ?_⟩
      cases hb : pathHit el pointer (strokeWidth / zoom)
      · rfl
      · exact absurd (key.mp hb) hn
  · intro b
    refine ⟨?_, rfl⟩
    simp [setElementsAndCommit, updateActiveBoard]

/-- Witness for C7 (amended): the transient conjunct at a concrete board. -/
theorem erase_step_spec_witness :
    (setElementsAndCommit (fun e => eraseStep e ⟨0, 0⟩ 10 1) false boardOne).history.length
      = boardOne.history.length :=
  ((erase_step_spec boardOne.elements ⟨0, 0⟩ 10 1).2 boardOne).1

/-- Rotating by cosine 1 and sine 0 is the identity. -/
theorem rotatePointCS_one_zero (p center : Point) : rotatePointCS 1 0 p center = p := by
  cases p with
  | mk px py =>
    cases center with
    | mk cx cy => simp [rotatePointCS]

/-- C10 counterexample: a single element with degenerate (0 × 0) bounds —
here a one-point freehand path at `(5, 5)` — is skipped by
`getSelectionBounds`, which then returns the zero rect instead of the
axis-aligned box `(5, 5, 0, 0)` of its rotated corners. -/
theorem selection_bounds_degenerate_cex :
    getSelectionBounds trigId ["D"] [dotPath] = ⟨0, 0, 0, 0⟩ ∧
    specAABB trigId (getElementBounds dotPath) (elRotation dotPath) = ⟨5, 5, 0, 0⟩ ∧
    ((5 : ℚ) ≠ 0) := by
  refine ⟨?_, ?_, by norm_num⟩
  · norm_num [getSelectionBounds, selectionCorners, getElementBounds, boundsOfPoints,
      dotPath, List.filter_cons, rotatedCorners]
  · norm_num [specAABB, rotatePointCS, centerOf, getElementBounds, boundsOfPoints,
      dotPath, elRotation, trigId]

/-- C10 (amended): for a single selected element (not a frame; frames carry
no rotation field) whose bounds are not 0 × 0, `getSelectionBounds` equals
the axis-aligned bounding box of the four bounds corners each rotated by
the element's rotation about the bounds center — for every rotation angle,
in particular 0, 45, 90, 137 and −30 degrees, whatever exact cosine/sine
pair `trig` assigns to it (only `trig 0 = (1, 0)` is required, as holds for
the true cosine/sine). -/
theorem selection_bounds_single_rotated (trig : ℚ → ℚ × ℚ) (el : Element)
    (ids : List String) (els : List Element)
    (htrig : trig 0 = (1, 0))
    (hsel : els.filter (fun e => ids.contains e.id) = [el])
    (hfr : el.type ≠ ElType.frame)
    (hdeg : ¬((getElementBounds el).width = 0 ∧ (getElementBounds el).height = 0)) :
    getSelectionBounds trig ids els = specAABB trig (getElementBounds el) el.rotation := by
  have hrot : elRotation el = el.rotation := by
    simp [elRotation, hfr]
  have hcond : ((getElementBounds el).width == 0 && (getElementBounds el).height == 0) = false := by
    rcases not_and_or.mp hdeg with h | h <;> simp [beq_iff_eq, h]
  unfold getSelectionBounds selectionCorners
  rw [hsel]
  simp only [List.map_cons, List.map_nil, hcond, Bool.false_eq_true, if_false,
    List.flatten_cons, List.flatten_nil, List.append_nil]
  rw [rotatedCorners, hrot]
  by_cases hr0 : el.rotation = 0
  · rw [hr0, htrig]
    simp only [beq_self_eq_true, if_true, corners, specAABB, centerOf, htrig,
      rotatePointCS_one_zero, List.foldl_cons, List.foldl_nil]
  · have : (el.rotation == 0) = false := by simp [beq_iff_eq, hr0]
    rw [this]
    simp only [Bool.false_eq_true, if_false, corners, List.map_cons, List.map_nil,
      specAABB, centerOf, List.foldl_cons, List.foldl_nil]

/-- Witness for C10 (amended): a shape rotated by 137 degrees. -/
theorem selection_bounds_single_rotated_witness :
    getSelectionBounds trigId ["s"] [elS] = specAABB trigId (getElementBounds elS) elS.rotation :=
  selection_bounds_single_rotated trigId elS ["s"] [elS] rfl (by decide) (by decide)
    (by norm_num [getElementBounds, elS])

/-- Shifting a rectangle shifts its pivot with it. -/
theorem pivotOf_translate (rect : Rect) (handle : Handle) (dx dy : ℚ) :
    pivotOf ⟨rect.x + dx, rect.y + dy, rect.width, rect.height⟩ handle =
      ⟨(pivotOf rect handle).x + dx, (pivotOf rect handle).y + dy⟩ := by
  cases handle <;>
    simp [pivotOf, Handle.hasL, Handle.hasR, Handle.hasT, Handle.hasB] <;>
    try constructor
  all_goals ring

/-- Shifting a rectangle shifts its center with it. -/
theorem centerOf_translate (rect : Rect) (dx dy : ℚ) :
    centerOf ⟨rect.x + dx, rect.y + dy, rect.width, rect.height⟩ =
      ⟨(centerOf rect).x + dx, (centerOf rect).y + dy⟩ := by
  simp [centerOf]
  try constructor
  all_goals ring

/-- Rotation about a center commutes with translating both the point and
the center. -/
theorem rotatePointCS_translate (c s dx dy : ℚ) (p center : Point) :
    rotatePointCS c s ⟨p.x + dx, p.y + dy⟩ ⟨center.x + dx, center.y + dy⟩ =
      ⟨(rotatePointCS c s p center).x + dx, (rotatePointCS c s p center).y + dy⟩ := by
  simp [rotatePointCS]
  try constructor
  all_goals ring

/-- The rotated pivot of a translated rectangle is the translated rotated
pivot. -/
theorem rotate_pivot_translate (c s : ℚ) (rect : Rect) (handle : Handle) (dx dy : ℚ) :
    rotatePointCS c s (pivotOf ⟨rect.x + dx, rect.y + dy, rect.width, rect.height⟩ handle)
        (centerOf ⟨rect.x + dx, rect.y + dy, rect.width, rect.height⟩) =
      ⟨(rotatePointCS c s (pivotOf rect handle) (centerOf rect)).x + dx,
       (rotatePointCS c s (pivotOf rect handle) (centerOf rect)).y + dy⟩ := by
  rw [pivotOf_translate, centerOf_translate, rotatePointCS_translate]

/-- Core of the anchor-fixing argument: whatever the temp rectangle is,
translating it by the difference between the old and the new rotated pivot
puts the rotated pivot back at the old position. -/
theorem resize_pivot_core (c s tx ty w h : ℚ) (handle : Handle) (pw : Point) :
    rotatePointCS c s
        (pivotOf ⟨tx + (pw.x - (rotatePointCS c s (pivotOf ⟨tx, ty, w, h⟩ handle)
                    (centerOf ⟨tx, ty, w, h⟩)).x),
                  ty + (pw.y - (rotatePointCS c s (pivotOf ⟨tx, ty, w, h⟩ handle)
                    (centerOf ⟨tx, ty, w, h⟩)).y), w, h⟩ handle)
        (centerOf ⟨tx + (pw.x - (rotatePointCS c s (pivotOf ⟨tx, ty, w, h⟩ handle)
                    (centerOf ⟨tx, ty, w, h⟩)).x),
                  ty + (pw.y - (rotatePointCS c s (pivotOf ⟨tx, ty, w, h⟩ handle)
                    (centerOf ⟨tx, ty, w, h⟩)).y), w, h⟩) = pw := by
  rw [rotate_pivot_translate c s ⟨tx, ty, w, h⟩ handle]
  cases pw
  simp

/-- C6 counterexample: the 1-px minimum clamp can break the claimed
unconditional proportionality of image resizing.  A 100 × 10 image shrunk
from the bottom-right handle to the computed size ½ × ¹⁄₂₀ is clamped to
1 × 1, whose aspect ratio differs from 10 : 1. -/
theorem image_resize_clamp_cex :
    resizeBounds ⟨0, 0, 100, 10⟩ .br (isProportional .image false) (-(199 / 2)) 0 1 0 =
      ⟨0, 0, 1, 1⟩ ∧
    (resizeBounds ⟨0, 0, 100, 10⟩ .br (isProportional .image false) (-(199 / 2)) 0 1 0).height
        * 100 ≠
      (resizeBounds ⟨0, 0, 100, 10⟩ .br (isProportional .image false) (-(199 / 2)) 0 1 0).width
        * 10 := by
  have h : resizeBounds ⟨0, 0, 100, 10⟩ .br (isProportional .image false) (-(199 / 2)) 0 1 0 =
      ⟨0, 0, 1, 1⟩ := by
    norm_num [resizeBounds, resizeDims, resizeDimsRaw, clampMin1, isProportional, pivotOf,
      centerOf, rotatePointCS, Handle.hasL, Handle.hasR, Handle.hasT, Handle.hasB]
  refine ⟨h, ?_⟩
  rw [h]
  norm_num

/-- C6 (amended): image elements resize proportionally (and other types do
so exactly when shift is held, text never) *provided the 1-px minimum clamp
does not fire*; and for every handle, rotation (arbitrary exact
cosine/sine) and input, the anchor opposite the active handle stays fixed
in world space — in particular doubling an unrotated image's width from the
bottom-right handle doubles its height and keeps its top-left corner, as
long as the doubled sizes stay above the 1-px clamp. -/
theorem resize_proportional_spec :
    (∀ shift, isProportional .image shift = true) ∧
    (∀ shift, isProportional .text shift = false) ∧
    (∀ ty shift, ty ≠ ElType.image → ty ≠ ElType.text → isProportional ty shift = shift) ∧
    (∀ orig handle dxL dyL, 0 < orig.width → 0 < orig.height →
      1 ≤ (resizeDimsRaw orig handle true dxL dyL).1 →
      1 ≤ (resizeDimsRaw orig handle true dxL dyL).2 →
      (resizeDims orig handle true dxL dyL).2 * orig.width =
        (resizeDims orig handle true dxL dyL).1 * orig.height) ∧
    (∀ orig handle isProp dxL dyL c s,
      rotatePointCS c s (pivotOf (resizeBounds orig handle isProp dxL dyL c s) handle)
          (centerOf (resizeBounds orig handle isProp dxL dyL c s)) =
        rotatePointCS c s (pivotOf orig handle) (centerOf orig)) ∧
    (∀ x y w h dyL : ℚ, 1 / 2 ≤ w → 1 / 2 ≤ h →
      resizeBounds ⟨x, y, w, h⟩ .br true w dyL 1 0 = ⟨x, y, 2 * w, 2 * h⟩) := by
  refine ⟨fun shift => rfl, fun shift => by simp [isProportional], ?_, ?_, ?_, ?_⟩
  · intro ty shift h1 h2
    cases ty <;> (try exact absurd rfl h1) <;> (try exact absurd rfl h2) <;>
      cases shift <;> rfl
  · intro orig handle dxL dyL hw hh h1 h2
    have hd : resizeDims orig handle true dxL dyL = resizeDimsRaw orig handle true dxL dyL := by
      rw [resizeDims, clampMin1, clampMin1, if_neg (by linarith), if_neg (by linarith)]
    rw [hd]
    unfold resizeDimsRaw
    have hwne : orig.width ≠ 0 := ne_of_gt hw
    have hhne : orig.height ≠ 0 := ne_of_gt hh
    by_cases hb : (handle.hasR || handle.hasL) = true
    all_goals simp [hb, hw, hh]
    all_goals field_simp
    all_goals ring_nf
  · intro orig handle isProp dxL dyL c s
    exact resize_pivot_core c s
      (if handle.hasL then orig.x + orig.width - (resizeDims orig handle isProp dxL dyL).1
       else orig.x)
      (if handle.hasT then orig.y + orig.height - (resizeDims orig handle isProp dxL dyL).2
       else orig.y)
      (resizeDims orig handle isProp dxL dyL).1 (resizeDims orig handle isProp dxL dyL).2
      handle (rotatePointCS c s (pivotOf orig handle) (centerOf orig))
  · intro x y w h dyL hw hh
    have hw0 : (0 : ℚ) < w := by linarith
    have hh0 : (0 : ℚ) < h := by linarith
    have hwne : w ≠ 0 := ne_of_gt hw0
    have hhne : h ≠ 0 := ne_of_gt hh0
    have hraw : resizeDimsRaw ⟨x, y, w, h⟩ .br true w dyL = (2 * w, 2 * h) := by
      unfold resizeDimsRaw
      simp [Handle.hasR, Handle.hasB, Handle.hasL, Handle.hasT, hw0, hh0, Prod.ext_iff]
      constructor
      · ring
      · field_simp
        ring
    have hdims : resizeDims ⟨x, y, w, h⟩ .br true w dyL = (2 * w, 2 * h) := by
      rw [resizeDims, hraw, clampMin1, clampMin1,
        if_neg (by simp only []; linarith), if_neg (by simp only []; linarith)]
    unfold resizeBounds
    rw [hdims]
    simp [Handle.hasL, Handle.hasT, Handle.hasR, Handle.hasB, pivotOf, centerOf,
      rotatePointCS, Rect.mk.injEq]

/-- Witness for C6 (amended): doubling a 100 × 50 image from the
bottom-right handle. -/
theorem resize_proportional_spec_witness :
    resizeBounds ⟨0, 0, 100, 50⟩ .br true 100 0 1 0 = ⟨0, 0, 2 * 100, 2 * 50⟩ :=
  resize_proportional_spec.2.2.2.2.2 0 0 100 50 0 (by norm_num) (by norm_num)

/-- C5 (amended): a transient element update never changes `history.length`
or `historyIndex` and sets the live elements to the updater's result, but it
replaces the snapshot stored at `historyIndex` with that new array (all
other snapshots are untouched). -/
theorem transient_update_spec (u : List Element → List Element) (b : Board) :
    (setElementsAndCommit u false b).history.length = b.history.length ∧
    (setElementsAndCommit u false b).historyIndex = b.historyIndex ∧
    (setElementsAndCommit u false b).elements = u b.elements ∧
    (setElementsAndCommit u false b).history = b.history.set b.historyIndex (u b.elements) := by
  refine ⟨?_, rfl, rfl, rfl⟩
  simp [setElementsAndCommit, updateActiveBoard]

/-- Looking up an id that occurs nowhere in a list finds nothing in its
snapshot map. -/
theorem lookupSnap_captureStart_not_mem (ids : List String) :
    ∀ (els : List Element) (i : String), i ∉ els.map (fun e => e.id) →
      lookupSnap (captureStart ids els) i = none := by
  intro els
  induction els with
  | nil => intro i _; rfl
  | cons a l ih =>
    intro i h
    simp only [List.map_cons, List.mem_cons, not_or] at h
    obtain ⟨hne, hrest⟩ := h
    rw [captureStart, List.filterMap_cons]
    cases hc : ids.contains a.id with
    | false =>
      simp only [hc, Bool.false_eq_true, if_false]
      exact ih i hrest
    | true =>
      simp only [hc, if_true]
      rw [lookupSnap, List.find?_cons]
      have : (a.id == i) = false := by simp [Ne.symm hne]
      rw [this]
      exact ih i hrest

/-- Looking up a member's id in the captured snapshot map yields its own
snapshot when its id is dragged, nothing otherwise — provided ids are
unique in the element list. -/
theorem lookupSnap_captureStart (ids : List String) :
    ∀ (els : List Element), (els.map (fun e => e.id)).Nodup →
      ∀ el ∈ els, lookupSnap (captureStart ids els) el.id =
        if ids.contains el.id then some (snapOf el) else none := by
  intro els
  induction els with
  | nil => intro _ el h; cases h
  | cons a l ih =>
    intro hnd el hmem
    simp only [List.map_cons, List.nodup_cons] at hnd
    obtain ⟨hna, hndl⟩ := hnd
    rw [captureStart, List.filterMap_cons]
    rcases List.mem_cons.mp hmem with rfl | hml
    · cases hc : ids.contains el.id with
      | false =>
        simp only [hc, Bool.false_eq_true, if_false]
        exact lookupSnap_captureStart_not_mem ids l el.id hna
      | true =>
        simp only [hc, if_true]
        rw [lookupSnap, List.find?_cons]
        simp
    · have hne : a.id ≠ el.id := by
        intro he
        exact hna (he ▸ List.mem_map_of_mem (fun e => e.id) hml)
      cases hc : ids.contains a.id with
      | false =>
        simp only [hc, Bool.false_eq_true, if_false]
        exact ih hndl el hml
      | true =>
        simp only [hc, if_true]
        rw [lookupSnap, List.find?_cons]
        have : (a.id == el.id) = false := by simp [hne]
        rw [this]
        exact ih hndl el hml

/-- The snapshot map's key list is exactly the dragged member ids. -/
theorem mem_keys_captureStart (ids : List String) (els : List Element) (i : String) :
    i ∈ (captureStart ids els).map (fun kv => kv.1) ↔
      ∃ e ∈ els, e.id = i ∧ ids.contains e.id = true := by
  constructor
  · intro h
    simp only [captureStart, List.map_filterMap, List.mem_filterMap] at h
    obtain ⟨e, hmem, he⟩ := h
    by_cases hc : ids.contains e.id = true
    · rw [if_pos hc] at he
      refine ⟨e, hmem, ?_, hc⟩
      simpa using he
    · rw [if_neg hc] at he
      simp at he
  · rintro ⟨e, hmem, rfl, hc⟩
    simp only [captureStart, List.map_filterMap, List.mem_filterMap]
    refine ⟨e, hmem, ?_⟩
    rw [if_pos hc]
    rfl

/-- Re-parenting never changes id, type, position or points. -/
theorem reparentFn_fields (frames : List Element) (movingIds : List String) (el : Element) :
    (reparentFn frames movingIds el).id = el.id ∧
    (reparentFn frames movingIds el).type = el.type ∧
    (reparentFn frames movingIds el).x = el.x ∧
    (reparentFn frames movingIds el).y = el.y ∧
    (reparentFn frames movingIds el).points = el.points := by
  rw [reparentFn]
  split
  · cases selectContainingFrame frames (getElementBounds el) <;> simp
  · simp

/-- Moving from a snapshot never changes id or type. -/
theorem moveByDelta_id_type (el : Element) (s : PosSnap) (fdx fdy : ℚ) :
    (moveByDelta el s fdx fdy).id = el.id ∧ (moveByDelta el s fdx fdy).type = el.type := by
  cases s <;> simp [moveByDelta]

/-- The per-element move never changes id or type. -/
theorem moveFn_id_type (snaps : List (String × PosSnap)) (fdx fdy : ℚ) (el : Element) :
    (moveFn snaps fdx fdy el).id = el.id ∧ (moveFn snaps fdx fdy el).type = el.type := by
  rw [moveFn]
  cases lookupSnap snaps el.id with
  | none => exact ⟨rfl, rfl⟩
  | some s => exact moveByDelta_id_type el s fdx fdy

/-- When the snap search leaves the deltas unchanged, a gesture is the
pointwise map of its per-element composition. -/
theorem dragGesture_eq_map (els : List Element) (ids : List String) (dx dy zoom : ℚ)
    (h : snapDeltas els (captureStart ids els) dx dy zoom = (dx, dy)) :
    dragGesture els ids dx dy zoom = els.map (dragFn els ids dx dy) := by
  rw [dragGesture]
  simp only [h]
  rw [reparentAfterDrag, applyMove, List.map_map]
  rfl

/-- A drag gesture never changes an element's id. -/
theorem dragFn_id (els : List Element) (ids : List String) (fdx fdy : ℚ) (el : Element) :
    (dragFn els ids fdx fdy el).id = el.id := by
  rw [dragFn, (reparentFn_fields _ _ _).1, (moveFn_id_type _ _ _ _).1]

/-- A drag gesture never changes an element's type. -/
theorem dragFn_type (els : List Element) (ids : List String) (fdx fdy : ℚ) (el : Element) :
    (dragFn els ids fdx fdy el).type = el.type := by
  rw [dragFn, (reparentFn_fields _ _ _).2.1, (moveFn_id_type _ _ _ _).2]

/-- A drag gesture preserves the id list of the scene. -/
theorem map_id_dragFn (els scene : List Element) (ids : List String) (fdx fdy : ℚ) :
    (els.map (dragFn scene ids fdx fdy)).map (fun e => e.id) = els.map (fun e => e.id) := by
  rw [List.map_map]
  exact List.map_congr_left (fun x _ => dragFn_id scene ids fdx fdy x)

/-- An undragged id is not a key of the snapshot map. -/
theorem keys_contains_false (ids : List String) (els : List Element) (i : String)
    (hc : ¬ ids.contains i = true) :
    ((captureStart ids els).map (fun kv => kv.1)).contains i = false := by
  by_contra hkc
  rw [Bool.not_eq_false] at hkc
  obtain ⟨e, _, heid, hec⟩ := (mem_keys_captureStart ids els i).mp (List.elem_iff.mp hkc)
  rw [heid] at hec
  exact hc hec

/-- A drag gesture leaves an element whose id is not dragged untouched,
provided element ids are unique. -/
theorem dragFn_not_dragged (els : List Element) (ids : List String) (fdx fdy : ℚ)
    (el : Element) (hmem : el ∈ els) (hnd : (els.map (fun e => e.id)).Nodup)
    (hc : ¬ ids.contains el.id = true) :
    dragFn els ids fdx fdy el = el := by
  have hm : moveFn (captureStart ids els) fdx fdy el = el := by
    rw [moveFn, lookupSnap_captureStart ids els hnd el hmem, if_neg hc]
  rw [dragFn, hm, reparentFn]
  simp only [keys_contains_false ids els el.id hc, Bool.false_and, Bool.false_eq_true, if_false]

/-- A drag gesture moves a dragged element from its snapshot by the final
delta (and only re-parents it afterwards), provided element ids are
unique. -/
theorem dragFn_dragged_fields (els : List Element) (ids : List String) (fdx fdy : ℚ)
    (el : Element) (hmem : el ∈ els) (hnd : (els.map (fun e => e.id)).Nodup)
    (hc : ids.contains el.id = true) :
    (dragFn els ids fdx fdy el).x = (moveByDelta el (snapOf el) fdx fdy).x ∧
    (dragFn els ids fdx fdy el).y = (moveByDelta el (snapOf el) fdx fdy).y ∧
    (dragFn els ids fdx fdy el).points = (moveByDelta el (snapOf el) fdx fdy).points := by
  have hm : moveFn (captureStart ids els) fdx fdy el = moveByDelta el (snapOf el) fdx fdy := by
    rw [moveFn, lookupSnap_captureStart ids els hnd el hmem, if_pos hc]
  rw [dragFn, hm]
  have hf := reparentFn_fields
    ((applyMove els (captureStart ids els) fdx fdy).filter (fun e => e.type == .frame))
    ((captureStart ids els).map (fun kv => kv.1)) (moveByDelta el (snapOf el) fdx fdy)
  exact ⟨hf.2.2.1, hf.2.2.2.1, hf.2.2.2.2⟩

/-- Dragging by `(dx, dy)` and then, from the committed result, by
`(-dx, -dy)` returns every element to its exact original x, y and point
list. -/
theorem dragFn_roundtrip (els : List Element) (ids : List String) (dx dy : ℚ)
    (hnd : (els.map (fun e => e.id)).Nodup) (el : Element) (hmem : el ∈ els) :
    (dragFn (els.map (dragFn els ids dx dy)) ids (-dx) (-dy)
        (dragFn els ids dx dy el)).id = el.id ∧
    (dragFn (els.map (dragFn els ids dx dy)) ids (-dx) (-dy)
        (dragFn els ids dx dy el)).x = el.x ∧
    (dragFn (els.map (dragFn els ids dx dy)) ids (-dx) (-dy)
        (dragFn els ids dx dy el)).y = el.y ∧
    (dragFn (els.map (dragFn els ids dx dy)) ids (-dx) (-dy)
        (dragFn els ids dx dy el)).points = el.points := by
  have hnd₁ : ((els.map (dragFn els ids dx dy)).map (fun e => e.id)).Nodup := by
    rw [map_id_dragFn]; exact hnd
  have hmem₁ : dragFn els ids dx dy el ∈ els.map (dragFn els ids dx dy) :=
    List.mem_map_of_mem _ hmem
  have hid₁ : (dragFn els ids dx dy el).id = el.id := dragFn_id els ids dx dy el
  have htype₁ : (dragFn els ids dx dy el).type = el.type := dragFn_type els ids dx dy el
  by_cases hc : ids.contains el.id = true
  · -- the element is dragged in both gestures
    obtain ⟨hx₁, hy₁, hp₁⟩ := dragFn_dragged_fields els ids dx dy el hmem hnd hc
    obtain ⟨hx₂, hy₂, hp₂⟩ := dragFn_dragged_fields (els.map (dragFn els ids dx dy)) ids
      (-dx) (-dy) (dragFn els ids dx dy el) hmem₁ hnd₁ (by rw [hid₁]; exact hc)
    have hsnapel : snapOf (dragFn els ids dx dy el) =
        (if isPointsType el.type then PosSnap.pts (dragFn els ids dx dy el).points
         else PosSnap.xy ⟨(dragFn els ids dx dy el).x, (dragFn els ids dx dy el).y⟩) := by
      rw [snapOf, htype₁]
    cases hpt : isPointsType el.type with
    | false =>
      have hsnap : snapOf el = PosSnap.xy ⟨el.x, el.y⟩ := by
        rw [snapOf, hpt]; rfl
      rw [hpt] at hsnapel
      simp only [Bool.false_eq_true, if_false] at hsnapel
      refine ⟨by rw [dragFn_id, hid₁], ?_, ?_, ?_⟩
      · rw [hx₂, hsnapel]
        simp only [moveByDelta]
        rw [hx₁, hsnap]
        simp only [moveByDelta]
        ring
      · rw [hy₂, hsnapel]
        simp only [moveByDelta]
        rw [hy₁, hsnap]
        simp only [moveByDelta]
        ring
      · rw [hp₂, hsnapel]
        simp only [moveByDelta]
        rw [hp₁, hsnap]
        simp only [moveByDelta]
    | true =>
      have hsnap : snapOf el = PosSnap.pts el.points := by
        rw [snapOf, hpt]; rfl
      rw [hpt] at hsnapel
      simp only [if_true] at hsnapel
      refine ⟨by rw [dragFn_id, hid₁], ?_, ?_, ?_⟩
      · rw [hx₂, hsnapel]
        simp only [moveByDelta]
        rw [hx₁, hsnap]
        simp only [moveByDelta]
      · rw [hy₂, hsnapel]
        simp only [moveByDelta]
        rw [hy₁, hsnap]
        simp only [moveByDelta]
      · rw [hp₂, hsnapel]
        simp only [moveByDelta]
        rw [hp₁, hsnap]
        simp only [moveByDelta]
        rw [List.map_map]
        have hq : ∀ q ∈ el.points,
            ((fun q => (⟨q.x + -dx, q.y + -dy⟩ : Point)) ∘
              (fun q => (⟨q.x + dx, q.y + dy⟩ : Point))) q = id q := by
          intro q _
          cases q with
          | mk qx qy => simp [Function.comp]
        rw [List.map_congr_left hq, List.map_id]
  · -- the element is not dragged: both gestures leave it untouched
    have h₁ : dragFn els ids dx dy el = el := dragFn_not_dragged els ids dx dy el hmem hnd hc
    rw [h₁]
    have h₂ : dragFn (els.map (dragFn els ids dx dy)) ids (-dx) (-dy) el = el :=
      dragFn_not_dragged _ ids (-dx) (-dy) el (h₁ ▸ hmem₁) hnd₁ hc
    rw [h₂]
    exact ⟨rfl, rfl, rfl, rfl⟩

/-- C8 (amended): provided the alignment-snap search leaves the raw pointer
delta unchanged in both gestures (no candidate within the 5-px/zoom
threshold wins), dragging by `(dx, dy)` and then, in a second gesture, by
`(-dx, -dy)` returns every element — in particular the selected one — to
exactly its original x, y and point list, with no drift: positions are
recomputed from the gesture-start snapshots, so the two deltas cancel
exactly.  When a snap does fire, its adjustment is committed and the
reverse drag does not undo it. -/
theorem drag_roundtrip_no_snap (els : List Element) (ids : List String) (dx dy zoom : ℚ)
    (hnd : (els.map (fun e => e.id)).Nodup)
    (h1 : snapDeltas els (captureStart ids els) dx dy zoom = (dx, dy))
    (h2 : snapDeltas (dragGesture els ids dx dy zoom)
        (captureStart ids (dragGesture els ids dx dy zoom)) (-dx) (-dy) zoom = (-dx, -dy)) :
    List.Forall₂ (fun a b => a.id = b.id ∧ a.x = b.x ∧ a.y = b.y ∧ a.points = b.points)
      els (dragGesture (dragGesture els ids dx dy zoom) ids (-dx) (-dy) zoom) := by
  rw [dragGesture_eq_map els ids dx dy zoom h1] at h2 ⊢
  rw [dragGesture_eq_map (els.map (dragFn els ids dx dy)) ids (-dx) (-dy) zoom h2]
  rw [List.map_map, List.forall₂_map_right_iff, List.forall₂_same]
  intro x hx
  have h := dragFn_roundtrip els ids dx dy hnd x hx
  exact ⟨h.1.symm, h.2.1.symm, h.2.2.1.symm, h.2.2.2.symm⟩

/-- Witness for C8 (amended): a lone element dragged right and back with
nothing to snap to. -/
theorem drag_roundtrip_no_snap_witness :
    List.Forall₂ (fun a b => a.id = b.id ∧ a.x = b.x ∧ a.y = b.y ∧ a.points = b.points)
      [elDrag] (dragGesture (dragGesture [elDrag] ["A"] 100 0 1) ["A"] (-100) (-0) 1) :=
  drag_roundtrip_no_snap [elDrag] ["A"] 100 0 1 (by decide) rfl rfl

/-- C8 counterexample: with a static neighbor at x = 112, dragging the
10-wide element at x = 0 by `(+100, 0)` snaps its right edge to 112 (the
element lands at x = 102, two canvas units off the raw delta), and the
reverse drag by `(-100, 0)` finds nothing to snap to, leaving the element
at x = 2 instead of its original x = 0. -/
theorem drag_snap_drift_cex :
    (dragGesture (dragGesture [elDrag, elStatic] ["A"] 100 0 1) ["A"] (-100) 0 1).map
        (fun e => e.x) = [2, 112] ∧
    elDrag.x = 0 ∧ ((2 : ℚ) ≠ 0) := by
  have hcap : captureStart ["A"] [elDrag, elStatic] = [("A", PosSnap.xy ⟨0, 0⟩)] := by decide
  have hA : ((["A"] : List String).contains "A") = true := by decide
  have hB : ((["A"] : List String).contains "B") = false := by decide
  have hfr : (ElType.shape == ElType.frame) = false := by decide
  have hlookA : lookupSnap [("A", PosSnap.xy (⟨0, 0⟩ : Point))] "A" =
      some (PosSnap.xy ⟨0, 0⟩) := by decide
  have hlookB : lookupSnap [("A", PosSnap.xy (⟨0, 0⟩ : Point))] "B" = none := by decide
  have hmovV : movingPoints snapVPoints [elDrag, elStatic] [("A", PosSnap.xy ⟨0, 0⟩)] =
      [0, 5, 10] := by
    simp [movingPoints, boundsAtSnap, getElementBounds, snapVPoints, hlookA, hlookB,
      elDrag, elStatic]
    norm_num
  have hmovH : movingPoints snapHPoints [elDrag, elStatic] [("A", PosSnap.xy ⟨0, 0⟩)] =
      [0, 5, 10] := by
    simp [movingPoints, boundsAtSnap, getElementBounds, snapHPoints, hlookA, hlookB,
      elDrag, elStatic]
    norm_num
  have hothers : ([elDrag, elStatic].filter
      (fun el => !((([("A", PosSnap.xy (⟨0, 0⟩ : Point))].map (fun kv => kv.1)).contains el.id))))
      = [elStatic] := by decide
  have hstatV : staticPoints snapVPoints [elStatic] = [112, 117, 122] := by
    simp [staticPoints, snapVPoints, getElementBounds, elStatic]
    norm_num [insertUnique]
  have hstatH : staticPoints snapHPoints [elStatic] = [300, 305, 310] := by
    simp [staticPoints, snapHPoints, getElementBounds, elStatic]
    norm_num [insertUnique]
  have hbx : bestSnapAxis (5 / 1) 100 [0, 5, 10] [112, 117, 122] = some (2, 102) := by
    simp [bestSnapAxis]
    norm_num [betterSnap, absQ]
  have hby : bestSnapAxis (5 / 1) 0 [0, 5, 10] [300, 305, 310] = none := by
    simp [bestSnapAxis]
    norm_num [betterSnap, absQ]
  have hsd1 : snapDeltas [elDrag, elStatic] (captureStart ["A"] [elDrag, elStatic]) 100 0 1 =
      (102, 0) := by
    rw [hcap]
    unfold snapDeltas
    simp only [hmovV, hmovH, hothers, hstatV, hstatH, hbx, hby]
  have hg1 : dragGesture [elDrag, elStatic] ["A"] 100 0 1 =
      [{ elDrag with x := 102 }, elStatic] := by
    show reparentAfterDrag ((captureStart ["A"] [elDrag, elStatic]).map (fun kv => kv.1))
        (applyMove [elDrag, elStatic] (captureStart ["A"] [elDrag, elStatic])
          (snapDeltas [elDrag, elStatic] (captureStart ["A"] [elDrag, elStatic]) 100 0 1).1
          (snapDeltas [elDrag, elStatic] (captureStart ["A"] [elDrag, elStatic]) 100 0 1).2) =
      [{ elDrag with x := 102 }, elStatic]
    rw [hsd1, hcap]
    simp [reparentAfterDrag, reparentFn, applyMove, moveFn, moveByDelta, hlookA, hlookB,
      selectContainingFrame, frameContains, getElementBounds, elDrag, elStatic, hA, hB, hfr,
      Element.mk.injEq]
  have hcap2 : captureStart ["A"] [{ elDrag with x := 102 }, elStatic] =
      [("A", PosSnap.xy ⟨102, 0⟩)] := by decide
  have hlookA2 : lookupSnap [("A", PosSnap.xy (⟨102, 0⟩ : Point))] "A" =
      some (PosSnap.xy ⟨102, 0⟩) := by decide
  have hlookB2 : lookupSnap [("A", PosSnap.xy (⟨102, 0⟩ : Point))] "B" = none := by decide
  have hmovV2 : movingPoints snapVPoints [{ elDrag with x := 102 }, elStatic]
      [("A", PosSnap.xy ⟨102, 0⟩)] = [102, 107, 112] := by
    simp [movingPoints, boundsAtSnap, getElementBounds, snapVPoints, hlookA2, hlookB2,
      elDrag, elStatic]
    norm_num
  have hmovH2 : movingPoints snapHPoints [{ elDrag with x := 102 }, elStatic]
      [("A", PosSnap.xy ⟨102, 0⟩)] = [0, 5, 10] := by
    simp [movingPoints, boundsAtSnap, getElementBounds, snapHPoints, hlookA2, hlookB2,
      elDrag, elStatic]
    norm_num
  have hothers2 : ([{ elDrag with x := 102 }, elStatic].filter
      (fun el => !((([("A", PosSnap.xy (⟨102, 0⟩ : Point))].map (fun kv => kv.1)).contains el.id))))
      = [elStatic] := by decide
  have hbx2 : bestSnapAxis (5 / 1) (-100) [102, 107, 112] [112, 117, 122] = none := by
    simp [bestSnapAxis]
    norm_num [betterSnap, absQ]
  have hsd2 : snapDeltas [{ elDrag with x := 102 }, elStatic]
      (captureStart ["A"] [{ elDrag with x := 102 }, elStatic]) (-100) 0 1 = (-100, 0) := by
    rw [hcap2]
    unfold snapDeltas
    simp only [hmovV2, hmovH2, hothers2, hstatV, hstatH, hbx2, hby]
  have hg2 : dragGesture [{ elDrag with x := 102 }, elStatic] ["A"] (-100) 0 1 =
      [{ elDrag with x := 2 }, elStatic] := by
    show reparentAfterDrag
        ((captureStart ["A"] [{ elDrag with x := 102 }, elStatic]).map (fun kv => kv.1))
        (applyMove [{ elDrag with x := 102 }, elStatic]
          (captureStart ["A"] [{ elDrag with x := 102 }, elStatic])
          (snapDeltas [{ elDrag with x := 102 }, elStatic]
            (captureStart ["A"] [{ elDrag with x := 102 }, elStatic]) (-100) 0 1).1
          (snapDeltas [{ elDrag with x := 102 }, elStatic]
            (captureStart ["A"] [{ elDrag with x := 102 }, elStatic]) (-100) 0 1).2) =
      [{ elDrag with x := 2 }, elStatic]
    rw [hsd2, hcap2]
    simp [reparentAfterDrag, reparentFn, applyMove, moveFn, moveByDelta, hlookA2, hlookB2,
      selectContainingFrame, frameContains, getElementBounds, elDrag, elStatic, hA, hB, hfr,
      Element.mk.injEq]
    norm_num
  rw [hg1, hg2]
  refine ⟨by norm_num [elDrag, elStatic], rfl, by norm_num⟩

end Canvas
